import Mathlib

/-!
Shallow embedding of the barcode-parsing core of the book-barcode-reader
repository (`src/app.js`, class `BarcodeParser`), together with a model of
the classification-code decoder `parseCCode` (whose defining file
`ccode-data.js` is not among the provided sources).

Strings are embedded as Lean `String` / `List Char`; the JavaScript regular
expressions of the source are embedded as explicit decidable matching
functions with the same leftmost-match, greedy, first-alternative-first
semantics the source relies on.
-/

namespace BookBarcode

/-- The character class of JavaScript `\s` (and of the characters removed by
`String.prototype.trim`): tab, LF, VT, FF, CR, space, NBSP, and the Unicode
space separators plus LS, PS and the BOM. -/
def isJsWhitespace (c : Char) : Bool :=
  decide (c.toNat = 9) || decide (c.toNat = 10) || decide (c.toNat = 11) ||
  decide (c.toNat = 12) || decide (c.toNat = 13) || decide (c.toNat = 32) ||
  decide (c.toNat = 0xA0) || decide (c.toNat = 0x1680) ||
  (decide (0x2000 ≤ c.toNat) && decide (c.toNat ≤ 0x200A)) ||
  decide (c.toNat = 0x2028) || decide (c.toNat = 0x2029) ||
  decide (c.toNat = 0x202F) || decide (c.toNat = 0x205F) ||
  decide (c.toNat = 0x3000) || decide (c.toNat = 0xFEFF)

/-- The character class of JavaScript `\d`: the ASCII digits `0`–`9`. -/
def isDigitChar (c : Char) : Bool :=
  decide (48 ≤ c.toNat) && decide (c.toNat ≤ 57)

/-- One character of `input.replace(/[０-９]/g, s => fromCharCode(code - 0xFEE0))`:
a full-width digit (U+FF10–U+FF19) is shifted down by 0xFEE0, everything else
is kept. -/
def toHalfwidth (c : Char) : Char :=
  if 0xFF10 ≤ c.toNat ∧ c.toNat ≤ 0xFF19 then Char.ofNat (c.toNat - 0xFEE0) else c

/-- `String.prototype.trim`: drop JS whitespace from both ends. -/
def trimList (l : List Char) : List Char :=
  ((l.dropWhile isJsWhitespace).reverse.dropWhile isJsWhitespace).reverse

/-- The normalization pipeline of `BarcodeParser.normalizeInput` on the
character list: full-width digit folding, then trim. -/
def normalizeList (l : List Char) : List Char :=
  trimList (l.map toHalfwidth)

/-- `BarcodeParser.normalizeInput`: the falsy-input guard of the source
(`if (!input) return ''`) followed by the replace/trim pipeline. -/
def normalizeInput (s : String) : String :=
  if s = "" then "" else String.mk (normalizeList s.data)

/-- The anchored alternation `^(978|979)` of the source's ISBN regexes,
tested at the start of the list: the first three characters are literally
`978` or `979`. -/
def startsWith978or979 (l : List Char) : Bool :=
  decide (l.take 3 = ['9', '7', '8']) || decide (l.take 3 = ['9', '7', '9'])

/-- The regex `^(978|979)\d{10}$` of extractISBN pattern 1. -/
def isExact13ISBN (l : List Char) : Bool :=
  startsWith978or979 l && decide (l.length = 13) && (l.drop 3).all isDigitChar

/-- The character class `[-\s\d]` of extractISBN pattern 2. -/
def isIsbnLoose (c : Char) : Bool :=
  (c == '-') || isJsWhitespace c || isDigitChar c

/-- Matching the regex `(978|979)[-\s\d]{10,17}` at the current position:
after the prefix, the greedy bounded repetition takes as many class
characters as available up to 17, and the match succeeds iff at least 10
are available.  Returns the matched text (`match[0]`). -/
def p2MatchAt (l : List Char) : Option (List Char) :=
  if startsWith978or979 l then
    if 10 ≤ ((l.drop 3).takeWhile isIsbnLoose).length then
      some (l.take 3 ++ ((l.drop 3).takeWhile isIsbnLoose).take 17)
    else none
  else none

/-- Matching the regex `(978|979)\d{10}` at the current position (extractISBN
pattern 3).  Returns the matched 13-character text. -/
def p3MatchAt (l : List Char) : Option (List Char) :=
  if startsWith978or979 l && ((l.drop 3).take 10).all isDigitChar
      && decide (10 ≤ (l.drop 3).length) then
    some (l.take 13)
  else none

/-- Unanchored JavaScript `String.prototype.match` search: try the pattern at
each start position from left to right, returning the first success. -/
def scanMatch (f : List Char → Option (List Char)) : List Char → Option (List Char)
  | [] => f []
  | c :: rest =>
    match f (c :: rest) with
    | some r => some r
    | none => scanMatch f rest

/-- The separator-stripping `match[0].replace(/[-\s]/g, '')` of extractISBN
pattern 2. -/
def stripSeparators (l : List Char) : List Char :=
  l.filter (fun c => !((c == '-') || isJsWhitespace c))

/-- `BarcodeParser.extractISBN` on the normalized character list: pattern 1
(exact 13-digit ISBN), then pattern 2 (loose hyphen/space-separated match,
separators stripped), then pattern 3 (embedded 13-digit run). -/
def extractISBNList (l : List Char) : Option (List Char) :=
  if isExact13ISBN l then some l
  else
    match scanMatch p2MatchAt l with
    | some m => some (stripSeparators m)
    | none => scanMatch p3MatchAt l

/-- `BarcodeParser.extractISBN`: normalize, then run the three patterns. -/
def extractISBN (s : String) : Option String :=
  (extractISBNList (normalizeInput s).data).map String.mk

/-- extractISBN with its pattern-3 branch removed, for the dead-branch
comparison. -/
def extractISBNNoEmbeddedList (l : List Char) : Option (List Char) :=
  if isExact13ISBN l then some l
  else
    match scanMatch p2MatchAt l with
    | some m => some (stripSeparators m)
    | none => none

/-- String-level variant of `extractISBNNoEmbeddedList`. -/
def extractISBNNoEmbedded (s : String) : Option String :=
  (extractISBNNoEmbeddedList (normalizeInput s).data).map String.mk

/-- extractCCode pattern 1, the regex `^(\d{13})[-\s](\d{4})$`: a 13-digit
JAN code, one hyphen-or-whitespace separator, then the 4-digit code. -/
def p1CCode (l : List Char) : Option (List Char) :=
  if decide ((l.take 13).length = 13) && (l.take 13).all isDigitChar then
    match l.drop 13 with
    | sep :: c4 =>
      if ((sep == '-') || isJsWhitespace sep) && decide (c4.length = 4)
          && c4.all isDigitChar then
        some c4
      else none
    | [] => none
  else none

/-- extractCCode pattern 2, the regex `^(\d{13})C*(\d{4})$`: a 13-digit JAN
code, a greedy run of literal `C`s, then exactly the 4-digit code. -/
def p2CCode (l : List Char) : Option (List Char) :=
  if decide ((l.take 13).length = 13) && (l.take 13).all isDigitChar then
    if decide (((l.drop 13).dropWhile (fun c => c == 'C')).length = 4)
        && ((l.drop 13).dropWhile (fun c => c == 'C')).all isDigitChar then
      some ((l.drop 13).dropWhile (fun c => c == 'C'))
    else none
  else none

/-- extractCCode pattern 4, the regex `^C*(\d{4})$`: a greedy run of literal
`C`s followed by exactly 4 digits. -/
def p4CCode (l : List Char) : Option (List Char) :=
  if decide ((l.dropWhile (fun c => c == 'C')).length = 4)
      && (l.dropWhile (fun c => c == 'C')).all isDigitChar then
    some (l.dropWhile (fun c => c == 'C'))
  else none

/-- extractCCode pattern 6, the regex `^192(\d{4})`: the fixed `192` marker
of the second book-JAN row followed by at least 4 digits; the 4 digits after
the marker are the code. -/
def p6CCode (l : List Char) : Option (List Char) :=
  match l with
  | '1' :: '9' :: '2' :: rest =>
    if decide ((rest.take 4).length = 4) && (rest.take 4).all isDigitChar then
      some (rest.take 4)
    else none
  | _ => none

/-- `BarcodeParser.extractCCode` on the normalized character list: the six
patterns of the source in order, first match wins.  Pattern 3 is the test
`^\d{4}$` and pattern 5 the test `^\d{5}$` (returning the first 4). -/
def extractCCodeList (l : List Char) : Option (List Char) :=
  match p1CCode l with
  | some r => some r
  | none =>
    match p2CCode l with
    | some r => some r
    | none =>
      if decide (l.length = 4) && l.all isDigitChar then some l
      else
        match p4CCode l with
        | some r => some r
        | none =>
          if decide (l.length = 5) && l.all isDigitChar then some (l.take 4)
          else p6CCode l

/-- `BarcodeParser.extractCCode`: normalize, then run the six patterns. -/
def extractCCode (s : String) : Option String :=
  (extractCCodeList (normalizeInput s).data).map String.mk

/-- Spec-side formulation of the digit folding: a full-width digit
(U+FF10–U+FF19) is replaced by the standard digit with the same index
(`'0'` has code point 48); everything else is unchanged. -/
def specDigitMap (c : Char) : Char :=
  if 0xFF10 ≤ c.toNat ∧ c.toNat ≤ 0xFF19 then Char.ofNat (48 + (c.toNat - 0xFF10)) else c

/-- Spec-side formulation of trimming: drop the leading whitespace run, then
cut the trailing whitespace run off by length. -/
def trimSpecList (l : List Char) : List Char :=
  let front := l.dropWhile isJsWhitespace
  front.take (front.length - (front.reverse.takeWhile isJsWhitespace).length)

/-- Spec-side normalization: the half-width-digit transliteration with outer
whitespace trimmed, to be compared with `normalizeInput`. -/
def normalizeSpec (s : String) : String :=
  String.mk (trimSpecList (s.data.map specDigitMap))

/-- The decoded classification record `{ target, format, content }` of the
spec's Decoder. -/
structure DecodedClassification where
  target : String
  format : String
  content : String
deriving DecidableEq

/-- Modelled from the spec: the target-readership table of `ccode-data.js`
(missing from the provided sources) is a static total 10-entry map from the
first digit to a label; the concrete label text is a placeholder. -/
def targetLabel (d : Nat) : String := "readership-" ++ toString d

/-- Modelled from the spec: the format table of `ccode-data.js` (missing from
the provided sources) is a static total 10-entry map from the second digit to
a label; the concrete label text is a placeholder. -/
def formatLabel (d : Nat) : String := "format-" ++ toString d

/-- Modelled from the spec: the content-category table of `ccode-data.js`
(missing from the provided sources) is a static total 10×100 map from the
first digit and the trailing two-digit pair to a label (unassigned entries
hold an explicit sentinel); the concrete label text is a placeholder. -/
def contentLabel (t cc : Nat) : String :=
  "content-" ++ toString t ++ "-" ++ toString cc

/-- Modelled from the spec: `parseCCode` of `ccode-data.js` (missing from the
provided sources) accepts exactly 4 digit characters, decomposes them as
target digit, format digit and two-digit content code, looks each part up in
the total static tables, and fails (absent) on any other input. -/
def parseCCodeList (l : List Char) : Option DecodedClassification :=
  match l with
  | [d1, d2, d3, d4] =>
    if isDigitChar d1 && isDigitChar d2 && isDigitChar d3 && isDigitChar d4 then
      some { target := targetLabel (d1.toNat - 48)
             format := formatLabel (d2.toNat - 48)
             content := contentLabel (d1.toNat - 48) ((d3.toNat - 48) * 10 + (d4.toNat - 48)) }
    else none
  | _ => none

/-- Modelled from the spec: string-level entry point of the decoder. -/
def parseCCode (code : String) : Option DecodedClassification :=
  parseCCodeList code.data

/-! ## Character-class facts -/

theorem isDigitChar_iff {c : Char} : isDigitChar c = true ↔ 48 ≤ c.toNat ∧ c.toNat ≤ 57 := by
  simp [isDigitChar]

theorem isDigitChar_toNat_lt {c : Char} (h : isDigitChar c = true) : c.toNat < 0xFF10 := by
  have := isDigitChar_iff.mp h
  omega

theorem isJsWhitespace_toNat_lt {c : Char} (h : isJsWhitespace c = true) : c.toNat < 0xFF10 := by
  simp [isJsWhitespace] at h
  omega

theorem isJsWhitespace_of_digit {c : Char} (h : isDigitChar c = true) :
    isJsWhitespace c = false := by
  have := isDigitChar_iff.mp h
  simp [isJsWhitespace]
  omega

theorem digit_beq_eq_false {c d : Char} (h : isDigitChar c = true)
    (hd : isDigitChar d = false) : (c == d) = false := by
  rw [beq_eq_false_iff_ne]
  intro he
  rw [he] at h
  rw [h] at hd
  exact absurd hd (by simp)

theorem digit_sep_test_false {c : Char} (h : isDigitChar c = true) :
    ((c == '-') || isJsWhitespace c) = false := by
  have h1 : (c == '-') = false := digit_beq_eq_false h (by decide)
  have h2 := isJsWhitespace_of_digit h
  simp [h1, h2]

theorem digit_beq_C_false {c : Char} (h : isDigitChar c = true) : (c == 'C') = false :=
  digit_beq_eq_false h (by decide)

/-! ## Normalization facts -/

theorem toHalfwidth_eq_self {c : Char} (h : c.toNat < 0xFF10) : toHalfwidth c = c := by
  rw [toHalfwidth, if_neg]
  omega

theorem map_toHalfwidth_eq_self {l : List Char} (h : ∀ c ∈ l, c.toNat < 0xFF10) :
    l.map toHalfwidth = l := by
  rw [List.map_congr_left (fun c hc => toHalfwidth_eq_self (h c hc))]
  simp

theorem trimList_eq_self {l : List Char}
    (h1 : ∀ a, l.head? = some a → isJsWhitespace a = false)
    (h2 : ∀ a, l.getLast? = some a → isJsWhitespace a = false) :
    trimList l = l := by
  have hd : l.dropWhile isJsWhitespace = l := by
    cases l with
    | nil => rfl
    | cons a t => rw [List.dropWhile_cons, h1 a rfl]; simp
  rw [trimList, hd]
  have hr : l.reverse.dropWhile isJsWhitespace = l.reverse := by
    cases hrev : l.reverse with
    | nil => rfl
    | cons a t =>
      have ha : isJsWhitespace a = false := by
        apply h2
        rw [← List.head?_reverse, hrev]
        rfl
      rw [List.dropWhile_cons, ha]
      simp
  rw [hr, List.reverse_reverse]

theorem normalizeList_eq_self {l : List Char}
    (hfw : ∀ c ∈ l, c.toNat < 0xFF10)
    (h1 : ∀ a, l.head? = some a → isJsWhitespace a = false)
    (h2 : ∀ a, l.getLast? = some a → isJsWhitespace a = false) :
    normalizeList l = l := by
  rw [normalizeList, map_toHalfwidth_eq_self hfw, trimList_eq_self h1 h2]

theorem mk_data_eq (s : String) : String.mk s.data = s := String.ext rfl

theorem normalizeInput_eq_self {s : String}
    (hfw : ∀ c ∈ s.data, c.toNat < 0xFF10)
    (h1 : ∀ a, s.data.head? = some a → isJsWhitespace a = false)
    (h2 : ∀ a, s.data.getLast? = some a → isJsWhitespace a = false) :
    normalizeInput s = s := by
  by_cases hs : s = ""
  · rw [hs]; rfl
  · rw [normalizeInput, if_neg hs, normalizeList_eq_self hfw h1 h2, mk_data_eq]

theorem normalizeInput_of_digits {s : String} (hdig : s.data.all isDigitChar = true) :
    normalizeInput s = s := by
  have hd := List.all_eq_true.mp hdig
  apply normalizeInput_eq_self
  · exact fun c hc => isDigitChar_toNat_lt (hd c hc)
  · intro a ha
    exact isJsWhitespace_of_digit (hd a (List.mem_of_mem_head? (Option.mem_def.mpr ha)))
  · intro a ha
    exact isJsWhitespace_of_digit (hd a (List.mem_of_mem_getLast? (Option.mem_def.mpr ha)))

theorem normalizeInput_jan_mid (J C mid : List Char)
    (hJne : J ≠ []) (hJdig : J.all isDigitChar = true)
    (hCne : C ≠ []) (hCdig : C.all isDigitChar = true)
    (hmid : ∀ c ∈ mid, c.toNat < 0xFF10) :
    normalizeInput (String.mk (J ++ (mid ++ C))) = String.mk (J ++ (mid ++ C)) := by
  have hJd := List.all_eq_true.mp hJdig
  have hCd := List.all_eq_true.mp hCdig
  apply normalizeInput_eq_self
  · intro c hc
    have hc' : c ∈ J ++ (mid ++ C) := hc
    rcases List.mem_append.mp hc' with h | h
    · exact isDigitChar_toNat_lt (hJd c h)
    · rcases List.mem_append.mp h with h | h
      · exact hmid c h
      · exact isDigitChar_toNat_lt (hCd c h)
  · intro a ha
    have ha' : (J ++ (mid ++ C)).head? = some a := ha
    obtain ⟨b, L, hbl⟩ := List.exists_cons_of_ne_nil hJne
    rw [hbl, List.cons_append, List.head?_cons] at ha'
    have hab : b = a := Option.some.inj ha'
    rw [← hab]
    exact isJsWhitespace_of_digit (hJd b (by rw [hbl]; exact List.mem_cons_self b L))
  · intro a ha
    have ha' : (J ++ (mid ++ C)).getLast? = some a := ha
    rcases List.eq_nil_or_concat C with hC | ⟨L, b, hbl⟩
    · exact absurd hC hCne
    · have heq : J ++ (mid ++ L.concat b) = ((J ++ mid) ++ L) ++ [b] := by
        rw [List.concat_eq_append]
        simp [List.append_assoc]
      rw [hbl, heq, List.getLast?_concat] at ha'
      have hab : b = a := Option.some.inj ha'
      rw [← hab]
      exact isJsWhitespace_of_digit (hCd b (by rw [hbl]; simp))

/-! ## extractCCode pattern evaluations on JAN-plus-code inputs -/

theorem extractCCodeList_jan_sep {J C : List Char} {sep : Char}
    (hJlen : J.length = 13) (hJdig : J.all isDigitChar = true)
    (hClen : C.length = 4) (hCdig : C.all isDigitChar = true)
    (hsep : ((sep == '-') || isJsWhitespace sep) = true) :
    extractCCodeList (J ++ sep :: C) = some C := by
  have h1 : p1CCode (J ++ sep :: C) = some C := by
    rw [p1CCode, List.take_left' hJlen, List.drop_left' hJlen]
    simp [hJlen, hJdig, hsep, hClen, hCdig]
  rw [extractCCodeList, h1]

theorem dropWhile_replicate_append {n : Nat} {C : List Char} {c : Char} {t : List Char}
    (hct : C = c :: t) (hc : (c == 'C') = false) :
    (List.replicate n 'C' ++ C).dropWhile (fun x => x == 'C') = C := by
  rw [List.dropWhile_append, List.dropWhile_replicate]
  simp [hct, List.dropWhile_cons, hc]

theorem extractCCodeList_jan_cs {J C : List Char} (n : Nat)
    (hJlen : J.length = 13) (hJdig : J.all isDigitChar = true)
    (hClen : C.length = 4) (hCdig : C.all isDigitChar = true) :
    extractCCodeList (J ++ (List.replicate n 'C' ++ C)) = some C := by
  obtain ⟨c, t, hct⟩ := List.exists_cons_of_ne_nil
    (l := C) (by intro h; rw [h] at hClen; simp at hClen)
  have hcdig : isDigitChar c = true := List.all_eq_true.mp hCdig c (by rw [hct]; simp)
  have h1 : p1CCode (J ++ (List.replicate n 'C' ++ C)) = none := by
    rw [p1CCode, List.take_left' hJlen, List.drop_left' hJlen]
    cases n with
    | zero =>
      rw [List.replicate_zero, List.nil_append, hct]
      simp [hJlen, hJdig, digit_sep_test_false hcdig]
    | succ m =>
      rw [List.replicate_succ, List.cons_append]
      simp [hJlen, hJdig, (by decide : isJsWhitespace 'C' = false)]
  have h2 : p2CCode (J ++ (List.replicate n 'C' ++ C)) = some C := by
    rw [p2CCode, List.take_left' hJlen, List.drop_left' hJlen]
    have hdw := dropWhile_replicate_append (n := n) hct (digit_beq_C_false hcdig)
    simp only [hdw]
    simp [hJlen, hJdig, hClen, hCdig]
  rw [extractCCodeList, h1, h2]

/-! ## extractISBN pattern facts -/

theorem startsWith_iff {l : List Char} :
    startsWith978or979 l = true ↔
      l.take 3 = ['9', '7', '8'] ∨ l.take 3 = ['9', '7', '9'] := by
  simp [startsWith978or979]

theorem startsWith_cases {l : List Char} (h : startsWith978or979 l = true) :
    ∃ x, (x = '8' ∨ x = '9') ∧ l = '9' :: '7' :: x :: l.drop 3 := by
  have hsplit := (List.take_append_drop 3 l).symm
  rcases startsWith_iff.mp h with h3 | h3
  · rw [h3] at hsplit
    exact ⟨'8', Or.inl rfl, hsplit⟩
  · rw [h3] at hsplit
    exact ⟨'9', Or.inr rfl, hsplit⟩

theorem isExact13ISBN_of {l : List Char} (hlen : l.length = 13)
    (hdig : l.all isDigitChar = true)
    (h3 : l.take 3 = ['9', '7', '8'] ∨ l.take 3 = ['9', '7', '9']) :
    isExact13ISBN l = true := by
  have hsw : startsWith978or979 l = true := startsWith_iff.mpr h3
  have hdrop : (l.drop 3).all isDigitChar = true := by
    rw [List.all_eq_true] at hdig ⊢
    exact fun c hc => hdig c (List.drop_subset 3 l hc)
  simp [isExact13ISBN, hsw, hlen, hdrop]

theorem p2MatchAt_some {t a : List Char} (h : p2MatchAt t = some a) :
    startsWith978or979 t = true ∧
    10 ≤ ((t.drop 3).takeWhile isIsbnLoose).length ∧
    a = t.take 3 ++ ((t.drop 3).takeWhile isIsbnLoose).take 17 := by
  rw [p2MatchAt] at h
  split at h
  · split at h
    · next hlen => exact ⟨by assumption, hlen, (Option.some.inj h).symm⟩
    · exact absurd h (by simp)
  · exact absurd h (by simp)

theorem p3MatchAt_some {t m : List Char} (h : p3MatchAt t = some m) :
    startsWith978or979 t = true ∧ ((t.drop 3).take 10).all isDigitChar = true ∧
    10 ≤ (t.drop 3).length ∧ m = t.take 13 := by
  rw [p3MatchAt] at h
  split at h
  · next hc =>
    simp only [Bool.and_eq_true, decide_eq_true_eq] at hc
    exact ⟨hc.1.1, hc.1.2, hc.2, (Option.some.inj h).symm⟩
  · exact absurd h (by simp)

theorem scanMatch_some_ex {f : List Char → Option (List Char)} :
    ∀ {l m : List Char}, scanMatch f l = some m → ∃ t, t.Sublist l ∧ f t = some m := by
  intro l
  induction l with
  | nil => exact fun h => ⟨[], List.Sublist.refl [], h⟩
  | cons c rest ih =>
    intro m h
    rw [scanMatch] at h
    split at h
    · next r heq => exact ⟨c :: rest, List.Sublist.refl _, by rw [heq]; exact h⟩
    · obtain ⟨t, hs, hf⟩ := ih h
      exact ⟨t, hs.trans (List.sublist_cons_self c rest), hf⟩

theorem le_length_takeWhile {p q : Char → Bool} (himp : ∀ c, p c = true → q c = true) :
    ∀ (n : Nat) (l : List Char), (l.take n).all p = true → n ≤ l.length →
      n ≤ (l.takeWhile q).length := by
  intro n
  induction n with
  | zero => exact fun l _ _ => Nat.zero_le _
  | succ k ih =>
    intro l hall hlen
    cases l with
    | nil => simp at hlen
    | cons c t =>
      rw [List.take_succ_cons, List.all_cons, Bool.and_eq_true] at hall
      rw [List.takeWhile_cons_of_pos (himp c hall.1), List.length_cons]
      have hlen' : k ≤ t.length := by
        rw [List.length_cons] at hlen
        omega
      exact Nat.succ_le_succ (ih t hall.2 hlen')

theorem isIsbnLoose_of_digit {c : Char} (h : isDigitChar c = true) :
    isIsbnLoose c = true := by
  simp [isIsbnLoose, h]

theorem p2MatchAt_isSome_of_p3 {t m : List Char} (h : p3MatchAt t = some m) :
    (p2MatchAt t).isSome = true := by
  obtain ⟨hsw, hdig, hlen, _⟩ := p3MatchAt_some h
  rw [p2MatchAt, if_pos hsw,
    if_pos (le_length_takeWhile (fun c hc => isIsbnLoose_of_digit hc) 10 (t.drop 3) hdig hlen)]
  rfl

theorem scanMatch_p3_none : ∀ {l : List Char}, scanMatch p2MatchAt l = none →
    scanMatch p3MatchAt l = none := by
  intro l
  induction l with
  | nil => exact fun _ => rfl
  | cons c rest ih =>
    intro h
    rw [scanMatch] at h ⊢
    split at h
    · exact absurd h (by simp)
    · next heq =>
      cases hp3 : p3MatchAt (c :: rest) with
      | some m =>
        have hs := p2MatchAt_isSome_of_p3 hp3
        rw [heq] at hs
        exact absurd hs (by simp)
      | none =>
        exact ih h

/-! ## Shape of extractISBN results -/

theorem digit_of_loose_keep {c : Char} (hl : isIsbnLoose c = true)
    (hk : (!((c == '-') || isJsWhitespace c)) = true) : isDigitChar c = true := by
  simp only [isIsbnLoose, Bool.or_eq_true] at hl
  simp only [Bool.not_eq_eq_eq_not, Bool.not_true, Bool.or_eq_false_iff] at hk
  rcases hl with (h | h) | h
  · rw [h] at hk
    exact absurd hk.1 (by simp)
  · rw [h] at hk
    exact absurd hk.2 (by simp)
  · exact h

theorem isExact13ISBN_shape {l : List Char} (h : isExact13ISBN l = true) :
    l.all isDigitChar = true ∧
    (l.take 3 = ['9', '7', '8'] ∨ l.take 3 = ['9', '7', '9']) ∧ l.length = 13 := by
  rw [isExact13ISBN] at h
  simp only [Bool.and_eq_true, decide_eq_true_eq] at h
  obtain ⟨⟨hsw, hlen⟩, hdrop⟩ := h
  have h3 := startsWith_iff.mp hsw
  refine ⟨?_, h3, hlen⟩
  have htake : (l.take 3).all isDigitChar = true := by
    rcases h3 with h3 | h3 <;> rw [h3] <;> decide
  rw [← List.take_append_drop 3 l, List.all_append, htake, hdrop]
  rfl

theorem p2_result_shape {t a : List Char} (h : p2MatchAt t = some a) :
    (stripSeparators a).all isDigitChar = true ∧
    ((stripSeparators a).take 3 = ['9', '7', '8'] ∨
      (stripSeparators a).take 3 = ['9', '7', '9']) ∧
    3 ≤ (stripSeparators a).length ∧ (stripSeparators a).length ≤ 20 := by
  obtain ⟨hsw, hlen, ha⟩ := p2MatchAt_some h
  obtain ⟨x, hx, ht⟩ := startsWith_cases hsw
  have htk : t.take 3 = ['9', '7', x] := by
    conv_lhs => rw [ht]
    exact @List.take_left' Char ['9', '7', x] (t.drop 3) 3 rfl
  have hsa : stripSeparators a =
      ['9', '7', x] ++
        (((t.drop 3).takeWhile isIsbnLoose).take 17).filter
          (fun c => !((c == '-') || isJsWhitespace c)) := by
    rw [ha, stripSeparators, List.filter_append]
    congr 1
    rw [htk]
    rcases hx with hx | hx <;> rw [hx] <;> decide
  refine ⟨?_, ?_, ?_, ?_⟩
  · rw [hsa, List.all_append]
    have h978 : (['9', '7', x] : List Char).all isDigitChar = true := by
      rcases hx with hx | hx <;> rw [hx] <;> decide
    have hrest : ((((t.drop 3).takeWhile isIsbnLoose).take 17).filter
        (fun c => !((c == '-') || isJsWhitespace c))).all isDigitChar = true := by
      rw [List.all_eq_true]
      intro c hc
      have hmem := List.mem_filter.mp hc
      exact digit_of_loose_keep
        (List.mem_takeWhile_imp (List.mem_of_mem_take hmem.1)) hmem.2
    rw [h978, hrest]
    rfl
  · have : (stripSeparators a).take 3 = ['9', '7', x] := by
      rw [hsa]
      exact List.take_left' rfl
    rcases hx with hx | hx
    · exact Or.inl (by rw [this, hx])
    · exact Or.inr (by rw [this, hx])
  · rw [hsa, List.length_append]
    simp
  · rw [hsa, List.length_append]
    have h1 := List.length_filter_le
      (fun c => !((c == '-') || isJsWhitespace c)) (((t.drop 3).takeWhile isIsbnLoose).take 17)
    have h2 := List.length_take_le 17 ((t.drop 3).takeWhile isIsbnLoose)
    simp only [List.length_cons, List.length_nil]
    omega

theorem p3_result_shape {t m : List Char} (h : p3MatchAt t = some m) :
    m.all isDigitChar = true ∧
    (m.take 3 = ['9', '7', '8'] ∨ m.take 3 = ['9', '7', '9']) ∧ m.length = 13 := by
  obtain ⟨hsw, hdig, hlen, hm⟩ := p3MatchAt_some h
  obtain ⟨x, hx, ht⟩ := startsWith_cases hsw
  have htk : t.take 3 = ['9', '7', x] := by
    conv_lhs => rw [ht]
    exact @List.take_left' Char ['9', '7', x] (t.drop 3) 3 rfl
  have h13 : m = ['9', '7', x] ++ (t.drop 3).take 10 := by
    rw [hm, show (13 : Nat) = 3 + 10 from rfl, List.take_add, htk]
  have h978 : (['9', '7', x] : List Char).all isDigitChar = true := by
    rcases hx with hx | hx <;> rw [hx] <;> decide
  refine ⟨?_, ?_, ?_⟩
  · rw [h13, List.all_append, h978, hdig]
    rfl
  · have : m.take 3 = ['9', '7', x] := by
      rw [h13]
      exact List.take_left' rfl
    rcases hx with hx | hx
    · exact Or.inl (by rw [this, hx])
    · exact Or.inr (by rw [this, hx])
  · rw [h13, List.length_append]
    have : ((t.drop 3).take 10).length = 10 := by
      rw [List.length_take]
      omega
    rw [this]
    rfl

theorem extractISBNList_cases {l m : List Char} (h : extractISBNList l = some m) :
    (isExact13ISBN l = true ∧ m = l) ∨
    (∃ t a, t.Sublist l ∧ p2MatchAt t = some a ∧ m = stripSeparators a) ∨
    (∃ t, t.Sublist l ∧ p3MatchAt t = some m) := by
  rw [extractISBNList] at h
  split at h
  · next hex => exact Or.inl ⟨hex, (Option.some.inj h).symm⟩
  · split at h
    · next a heq =>
      obtain ⟨t, hs, hf⟩ := scanMatch_some_ex heq
      exact Or.inr (Or.inl ⟨t, a, hs, hf, (Option.some.inj h).symm⟩)
    · obtain ⟨t, hs, hf⟩ := scanMatch_some_ex h
      exact Or.inr (Or.inr ⟨t, hs, hf⟩)

theorem extractISBNList_shape {l m : List Char} (h : extractISBNList l = some m) :
    m.all isDigitChar = true ∧
    (m.take 3 = ['9', '7', '8'] ∨ m.take 3 = ['9', '7', '9']) ∧
    3 ≤ m.length ∧ m.length ≤ 20 := by
  rcases extractISBNList_cases h with ⟨hex, hm⟩ | ⟨t, a, _, hf, hm⟩ | ⟨t, _, hf⟩
  · obtain ⟨hall, h3, hlen⟩ := isExact13ISBN_shape hex
    rw [hm]
    exact ⟨hall, h3, by omega, by omega⟩
  · obtain ⟨hall, h3, hge, hle⟩ := p2_result_shape hf
    rw [hm]
    exact ⟨hall, h3, hge, hle⟩
  · obtain ⟨hall, h3, hlen⟩ := p3_result_shape hf
    exact ⟨hall, h3, by omega, by omega⟩

/-! ## Sublist facts (no fabricated characters) -/

theorem p2MatchAt_sublist {t a : List Char} (h : p2MatchAt t = some a) : a.Sublist t := by
  obtain ⟨hsw, hlen, ha⟩ := p2MatchAt_some h
  have hw : ((t.drop 3).takeWhile isIsbnLoose).take 17 ++
      (((t.drop 3).takeWhile isIsbnLoose).drop 17 ++ (t.drop 3).dropWhile isIsbnLoose) =
        t.drop 3 := by
    rw [← List.append_assoc, List.take_append_drop, List.takeWhile_append_dropWhile]
  have hat : a ++ (((t.drop 3).takeWhile isIsbnLoose).drop 17 ++
      (t.drop 3).dropWhile isIsbnLoose) = t := by
    rw [ha, List.append_assoc, hw, List.take_append_drop]
  rw [← hat]
  exact List.sublist_append_left _ _

theorem extractISBNList_sublist {l m : List Char} (h : extractISBNList l = some m) :
    m.Sublist l := by
  rcases extractISBNList_cases h with ⟨_, hm⟩ | ⟨t, a, hs, hf, hm⟩ | ⟨t, hs, hf⟩
  · rw [hm]
  · rw [hm]
    exact ((List.filter_sublist a).trans (p2MatchAt_sublist hf)).trans hs
  · obtain ⟨_, _, _, hm⟩ := p3MatchAt_some hf
    rw [hm]
    exact (List.take_sublist 13 t).trans hs

theorem p1CCode_sublist {l m : List Char} (h : p1CCode l = some m) : m.Sublist l := by
  rw [p1CCode] at h
  split at h
  · split at h
    · next sep c4 heq =>
      split at h
      · have hm : m = c4 := (Option.some.inj h).symm
        have hc4 : c4.Sublist (l.drop 13) := by
          rw [heq]
          exact List.sublist_cons_self sep c4
        rw [hm]
        exact hc4.trans (List.drop_sublist 13 l)
      · exact absurd h (by simp)
    · exact absurd h (by simp)
  · exact absurd h (by simp)

theorem p2CCode_sublist {l m : List Char} (h : p2CCode l = some m) : m.Sublist l := by
  rw [p2CCode] at h
  split at h
  · split at h
    · have hm : m = (l.drop 13).dropWhile (fun c => c == 'C') := (Option.some.inj h).symm
      rw [hm]
      exact (List.dropWhile_sublist _).trans (List.drop_sublist 13 l)
    · exact absurd h (by simp)
  · exact absurd h (by simp)

theorem p4CCode_sublist {l m : List Char} (h : p4CCode l = some m) : m.Sublist l := by
  rw [p4CCode] at h
  split at h
  · have hm : m = l.dropWhile (fun c => c == 'C') := (Option.some.inj h).symm
    rw [hm]
    exact List.dropWhile_sublist _
  · exact absurd h (by simp)

theorem p6CCode_sublist {l m : List Char} (h : p6CCode l = some m) : m.Sublist l := by
  unfold p6CCode at h
  split at h
  · next rest =>
    split at h
    · have hm : m = rest.take 4 := (Option.some.inj h).symm
      rw [hm]
      exact (((List.take_sublist 4 rest).trans
        (List.sublist_cons_self '2' rest)).trans
        (List.sublist_cons_self '9' ('2' :: rest))).trans
        (List.sublist_cons_self '1' ('9' :: '2' :: rest))
    · exact absurd h (by simp)
  · exact absurd h (by simp)

theorem extractCCodeList_sublist {l m : List Char} (h : extractCCodeList l = some m) :
    m.Sublist l := by
  rw [extractCCodeList] at h
  split at h
  · next r heq =>
    have := p1CCode_sublist heq
    rwa [Option.some.inj h] at this
  · split at h
    · next r heq =>
      have := p2CCode_sublist heq
      rwa [Option.some.inj h] at this
    · split at h
      · have hm : m = l := (Option.some.inj h).symm
        rw [hm]
      · split at h
        · next r heq =>
          have := p4CCode_sublist heq
          rwa [Option.some.inj h] at this
        · split at h
          · have hm : m = l.take 4 := (Option.some.inj h).symm
            rw [hm]
            exact List.take_sublist 4 l
          · exact p6CCode_sublist h

/-! ## String-level helpers for the JAN-plus-code inputs -/

theorem extractCCode_jan_sep_str (J C : String) (sep : Char)
    (hJlen : J.data.length = 13) (hJdig : J.data.all isDigitChar = true)
    (hClen : C.data.length = 4) (hCdig : C.data.all isDigitChar = true)
    (hsep : ((sep == '-') || isJsWhitespace sep) = true)
    (hfw : sep.toNat < 0xFF10) :
    extractCCode (J ++ String.mk [sep] ++ C) = some C := by
  have hJne : J.data ≠ [] := by
    intro h
    rw [h] at hJlen
    simp at hJlen
  have hCne : C.data ≠ [] := by
    intro h
    rw [h] at hClen
    simp at hClen
  have hstr : J ++ String.mk [sep] ++ C = String.mk (J.data ++ ([sep] ++ C.data)) := by
    apply String.ext
    rw [String.data_append, String.data_append, List.append_assoc]
  have hmid : ∀ c ∈ ([sep] : List Char), c.toNat < 0xFF10 := by
    intro c hc
    rw [List.mem_singleton.mp hc]
    exact hfw
  rw [extractCCode, hstr,
    normalizeInput_jan_mid J.data C.data [sep] hJne hJdig hCne hCdig hmid]
  show (extractCCodeList (J.data ++ sep :: C.data)).map String.mk = some C
  rw [extractCCodeList_jan_sep hJlen hJdig hClen hCdig hsep, Option.map_some', mk_data_eq]

theorem extractCCode_jan_cs_str (J C : String) (n : Nat)
    (hJlen : J.data.length = 13) (hJdig : J.data.all isDigitChar = true)
    (hClen : C.data.length = 4) (hCdig : C.data.all isDigitChar = true) :
    extractCCode (J ++ String.mk (List.replicate n 'C') ++ C) = some C := by
  have hJne : J.data ≠ [] := by
    intro h
    rw [h] at hJlen
    simp at hJlen
  have hCne : C.data ≠ [] := by
    intro h
    rw [h] at hClen
    simp at hClen
  have hstr : J ++ String.mk (List.replicate n 'C') ++ C =
      String.mk (J.data ++ (List.replicate n 'C' ++ C.data)) := by
    apply String.ext
    rw [String.data_append, String.data_append, List.append_assoc]
  have hmid : ∀ c ∈ List.replicate n 'C', c.toNat < 0xFF10 := by
    intro c hc
    rw [List.eq_of_mem_replicate hc]
    decide
  rw [extractCCode, hstr,
    normalizeInput_jan_mid J.data C.data (List.replicate n 'C') hJne hJdig hCne hCdig hmid]
  show (extractCCodeList (J.data ++ (List.replicate n 'C' ++ C.data))).map String.mk = some C
  rw [extractCCodeList_jan_cs n hJlen hJdig hClen hCdig, Option.map_some', mk_data_eq]

/-! ## Equivalence of source and spec normalization -/

theorem reverse_dropWhile_eq_take (p : Char → Bool) (x : List Char) :
    (x.reverse.dropWhile p).reverse =
      x.take (x.length - (x.reverse.takeWhile p).length) := by
  have hsplit : x.reverse.takeWhile p ++ x.reverse.dropWhile p = x.reverse :=
    List.takeWhile_append_dropWhile p x.reverse
  have hx : (x.reverse.dropWhile p).reverse ++ (x.reverse.takeWhile p).reverse = x := by
    rw [← List.reverse_append, hsplit, List.reverse_reverse]
  have hlen : ((x.reverse.dropWhile p).reverse).length =
      x.length - (x.reverse.takeWhile p).length := by
    have hl := congrArg List.length hx
    simp only [List.length_append, List.length_reverse] at hl
    have h2 := congrArg List.length hsplit
    simp only [List.length_append, List.length_reverse] at h2
    rw [List.length_reverse]
    omega
  calc (x.reverse.dropWhile p).reverse
      = ((x.reverse.dropWhile p).reverse ++ (x.reverse.takeWhile p).reverse).take
          ((x.reverse.dropWhile p).reverse.length) := (List.take_left _ _).symm
    _ = x.take ((x.reverse.dropWhile p).reverse.length) := by rw [hx]
    _ = x.take (x.length - (x.reverse.takeWhile p).length) := by rw [hlen]

theorem trimList_eq_trimSpec (l : List Char) : trimList l = trimSpecList l := by
  rw [trimList]
  simp only [trimSpecList]
  exact reverse_dropWhile_eq_take isJsWhitespace (l.dropWhile isJsWhitespace)

theorem toHalfwidth_eq_specDigitMap (c : Char) : toHalfwidth c = specDigitMap c := by
  rw [toHalfwidth, specDigitMap]
  split
  · next h => exact congrArg Char.ofNat (by omega)
  · rfl

/-! ## Domain of the modelled classification decoder -/

theorem parseCCodeList_isSome_iff {l : List Char} :
    (parseCCodeList l).isSome = true ↔ l.length = 4 ∧ l.all isDigitChar = true := by
  rcases l with _ | ⟨a, _ | ⟨b, _ | ⟨c, _ | ⟨d, _ | ⟨e, t⟩⟩⟩⟩⟩
  · simp [parseCCodeList]
  · simp [parseCCodeList]
  · simp [parseCCodeList]
  · simp [parseCCodeList]
  · rw [parseCCodeList]
    split
    · next hdig =>
      simp only [Option.isSome_some, true_iff]
      simp only [Bool.and_eq_true] at hdig
      simp [List.all_cons, hdig.1.1.1, hdig.1.1.2, hdig.1.2, hdig.2]
    · next hdig =>
      simp only [Option.isSome_none, Bool.false_eq_true, false_iff, not_and]
      intro _
      intro hall
      simp only [List.all_cons, List.all_nil, Bool.and_eq_true, and_true] at hall
      exact hdig (by simp [hall.1, hall.2.1, hall.2.2.1, hall.2.2.2])
  · constructor
    · intro h
      exact absurd h (by simp [show parseCCodeList (a :: b :: c :: d :: e :: t) = none from rfl])
    · intro h
      exfalso
      have := h.1
      simp only [List.length_cons] at this
      omega

/-! ## Claims -/

/-- C1 counterexample: on the spec's own combined JAN+C-code line the loose
pattern of `extractISBN` matches the whole line and, after separator
stripping, returns 17 digits — not a 13-character string. -/
theorem claim1_counterexample :
    extractISBN "9784101001012-0091" = some "97841010010120091" ∧
    ("97841010010120091" : String).data.length ≠ 13 := by
  constructor
  · decide
  · decide

/-- C1 (amended): whenever `extractISBN` returns a non-absent result, that
result is an all-digit string with no separators beginning with "978" or
"979", of length between 3 and 20 — but not necessarily 13 characters. -/
theorem claim1_isbn_result_shape (s r : String) (h : extractISBN s = some r) :
    r.data.all isDigitChar = true ∧
    (r.data.take 3 = ['9', '7', '8'] ∨ r.data.take 3 = ['9', '7', '9']) ∧
    3 ≤ r.data.length ∧ r.data.length ≤ 20 := by
  rw [extractISBN] at h
  obtain ⟨m, hm, hr⟩ := Option.map_eq_some'.mp h
  have hrd : r.data = m := by rw [← hr]
  rw [hrd]
  exact extractISBNList_shape hm

/-- Witness for the amended C1 at the counterexample input. -/
theorem claim1_witness :
    ("97841010010120091" : String).data.all isDigitChar = true ∧
    (("97841010010120091" : String).data.take 3 = ['9', '7', '8'] ∨
      ("97841010010120091" : String).data.take 3 = ['9', '7', '9']) ∧
    3 ≤ ("97841010010120091" : String).data.length ∧
    ("97841010010120091" : String).data.length ≤ 20 :=
  claim1_isbn_result_shape "9784101001012-0091" "97841010010120091" (by decide)

/-- C2: the six concrete `extractCCode` examples of the spec. -/
theorem claim2_ccode_examples :
    extractCCode "9784101001012-0091" = some "0091" ∧
    extractCCode "9784101001012C0091" = some "0091" ∧
    extractCCode "0091" = some "0091" ∧
    extractCCode "C0091" = some "0091" ∧
    extractCCode "00912" = some "0091" ∧
    extractCCode "1920093005804" = some "0093" := by
  refine ⟨?_, ?_, ?_, ?_, ?_, ?_⟩ <;> decide

/-- C3: the four concrete `extractISBN` examples of the spec. -/
theorem claim3_isbn_examples :
    extractISBN "9784101001012" = some "9784101001012" ∧
    extractISBN "978-4-10-100101-2" = some "9784101001012" ∧
    extractISBN "randomtext9784101001012moretext" = some "9784101001012" ∧
    extractISBN "0091" = none := by
  refine ⟨?_, ?_, ?_, ?_⟩ <;> decide

/-- C4: round-trip — every 13-character all-digit string beginning with
"978" or "979" is returned unchanged by `extractISBN`. -/
theorem claim4_isbn_roundtrip (s : String) (hlen : s.data.length = 13)
    (hdig : s.data.all isDigitChar = true)
    (h3 : s.data.take 3 = ['9', '7', '8'] ∨ s.data.take 3 = ['9', '7', '9']) :
    extractISBN s = some s := by
  rw [extractISBN, normalizeInput_of_digits hdig, extractISBNList,
    if_pos (isExact13ISBN_of hlen hdig h3), Option.map_some', mk_data_eq]

/-- Witness for C4 at a concrete valid ISBN. -/
theorem claim4_witness : extractISBN "9784101001012" = some "9784101001012" :=
  claim4_isbn_roundtrip "9784101001012" (by decide) (by decide) (by decide)

/-- C5: for a 13-digit JAN string J and 4-digit code C, `extractCCode`
returns C on J-hyphen-C, J-space-C, and J followed by any number of literal
`C` characters and then C. -/
theorem claim5_ccode_jan_forms (J C : String) (n : Nat)
    (hJlen : J.data.length = 13) (hJdig : J.data.all isDigitChar = true)
    (hClen : C.data.length = 4) (hCdig : C.data.all isDigitChar = true) :
    extractCCode (J ++ "-" ++ C) = some C ∧
    extractCCode (J ++ " " ++ C) = some C ∧
    extractCCode (J ++ String.mk (List.replicate n 'C') ++ C) = some C := by
  refine ⟨?_, ?_, ?_⟩
  · rw [show ("-" : String) = String.mk ['-'] from rfl]
    exact extractCCode_jan_sep_str J C '-' hJlen hJdig hClen hCdig (by decide) (by decide)
  · rw [show (" " : String) = String.mk [' '] from rfl]
    exact extractCCode_jan_sep_str J C ' ' hJlen hJdig hClen hCdig (by decide) (by decide)
  · exact extractCCode_jan_cs_str J C n hJlen hJdig hClen hCdig

/-- Witness for C5 at a concrete JAN and code with two `C`s. -/
theorem claim5_witness :
    extractCCode ("9784101001012" ++ "-" ++ "0091") = some "0091" ∧
    extractCCode ("9784101001012" ++ " " ++ "0091") = some "0091" ∧
    extractCCode ("9784101001012" ++ String.mk (List.replicate 2 'C') ++ "0091") =
      some "0091" :=
  claim5_ccode_jan_forms "9784101001012" "0091" 2
    (by decide) (by decide) (by decide) (by decide)

/-- C6: `normalizeInput` equals the spec-side normalization — every
full-width digit replaced by its standard-digit equivalent and outer
whitespace stripped, internal whitespace preserved — and empty input yields
the empty string. -/
theorem claim6_normalize_correct :
    (∀ s : String, normalizeInput s = normalizeSpec s) ∧ normalizeInput "" = "" := by
  constructor
  · intro s
    by_cases hs : s = ""
    · rw [hs]
      rfl
    · rw [normalizeInput, if_neg hs, normalizeSpec, normalizeList,
        List.map_congr_left (fun c _ => toHalfwidth_eq_specDigitMap c),
        trimList_eq_trimSpec]
  · rfl

/-- C7: the extractors never fabricate characters — every non-absent result
of `extractISBN` or `extractCCode` is a subsequence (characters in order) of
the normalized input. -/
theorem claim7_no_fabrication (s : String) :
    (∀ r, extractISBN s = some r → r.data.Sublist (normalizeInput s).data) ∧
    (∀ r, extractCCode s = some r → r.data.Sublist (normalizeInput s).data) := by
  constructor
  · intro r h
    rw [extractISBN] at h
    obtain ⟨m, hm, hr⟩ := Option.map_eq_some'.mp h
    have hrd : r.data = m := by rw [← hr]
    rw [hrd]
    exact extractISBNList_sublist hm
  · intro r h
    rw [extractCCode] at h
    obtain ⟨m, hm, hr⟩ := Option.map_eq_some'.mp h
    have hrd : r.data = m := by rw [← hr]
    rw [hrd]
    exact extractCCodeList_sublist hm

/-- Witness for C7 at an input where both extractors return a result. -/
theorem claim7_witness :
    ("97841010010120091" : String).data.Sublist
      (normalizeInput "9784101001012 0091").data ∧
    ("0091" : String).data.Sublist (normalizeInput "9784101001012 0091").data :=
  ⟨(claim7_no_fabrication "9784101001012 0091").1 "97841010010120091" (by decide),
    (claim7_no_fabrication "9784101001012 0091").2 "0091" (by decide)⟩

/-- C8: the modelled decoder returns a result exactly on 4-digit strings and
is absent on everything else, in particular on "99", "abcd" and "". -/
theorem claim8_decoder_domain :
    (∀ s : String, (parseCCode s).isSome = true ↔
      s.data.length = 4 ∧ s.data.all isDigitChar = true) ∧
    parseCCode "99" = none ∧ parseCCode "abcd" = none ∧ parseCCode "" = none := by
  refine ⟨fun s => parseCCodeList_isSome_iff, by decide, by decide, by decide⟩

/-- C9: the embedded-match branch of `extractISBN` is dead — wherever the
pattern-3 regex matches, the pattern-2 regex also matches, so `extractISBN`
is extensionally equal to the variant without the pattern-3 branch. -/
theorem claim9_embedded_branch_dead :
    (∀ l : List Char, (scanMatch p3MatchAt l).isSome = true →
      (scanMatch p2MatchAt l).isSome = true) ∧
    ∀ s : String, extractISBN s = extractISBNNoEmbedded s := by
  constructor
  · intro l h
    cases h2 : scanMatch p2MatchAt l with
    | some r => rfl
    | none =>
      rw [scanMatch_p3_none h2] at h
      exact absurd h (by simp)
  · intro s
    rw [extractISBN, extractISBNNoEmbedded, extractISBNList, extractISBNNoEmbeddedList]
    by_cases hex : isExact13ISBN (normalizeInput s).data = true
    · rw [if_pos hex, if_pos hex]
    · rw [if_neg hex, if_neg hex]
      cases h2 : scanMatch p2MatchAt (normalizeInput s).data with
      | some m => rfl
      | none => rw [scanMatch_p3_none h2]

/-- Witness for C9 at a concrete embedded-ISBN input. -/
theorem claim9_witness :
    (scanMatch p2MatchAt ("x9784101001012y".data)).isSome = true :=
  claim9_embedded_branch_dead.1 ("x9784101001012y".data) (by decide)

/-- C10: rule 1 of `extractCCode` accepts any single JS-whitespace character
as the separator between the 13-digit JAN string and the 4-digit code. -/
theorem claim10_ws_separator (J C : String) (w : Char)
    (hJlen : J.data.length = 13) (hJdig : J.data.all isDigitChar = true)
    (hClen : C.data.length = 4) (hCdig : C.data.all isDigitChar = true)
    (hw : isJsWhitespace w = true) :
    extractCCode (J ++ String.mk [w] ++ C) = some C :=
  extractCCode_jan_sep_str J C w hJlen hJdig hClen hCdig (by simp [hw])
    (isJsWhitespace_toNat_lt hw)

/-- Witness for C10 with a tab separator. -/
theorem claim10_witness :
    extractCCode ("9784101001012" ++ String.mk ['\t'] ++ "0091") = some "0091" :=
  claim10_ws_separator "9784101001012" "0091" '\t'
    (by decide) (by decide) (by decide) (by decide) (by decide)

end BookBarcode
